import Mathlib

/-!
Shallow embedding of the `errors` Go package (github.com/neoxelox/errors),
translated from `src/unnamed/part_002` (the unified implementation; the older
`src/errors.go` is the same design without `module`, `tags` and the Sentry
projection).  Machine-level effects are made explicit:

* `runtime.Callers` stack capture and `fmt.Sprintf` formatting are environment
  inputs; they are passed as parameters (the captured frames, the formatted
  string) to the constructors that use them.
* Go maps (`map[string]any`, `map[string]string`, `map[string]bool`) are
  association lists with insert-or-overwrite (`upsert`) semantics; the list
  order is a canonical iteration order.
* A Go `error` interface value is `GoError`: `nil`, an `Error` value, a
  non-nil `*Error` pointer, or a foreign error carrying an allocation identity
  (for interface `==`), its display message and its `reflect` type string.
  Nil-pointer-typed non-nil interfaces are outside the model: the package never
  produces them (`Raise` always returns a fresh non-nil pointer).
* Operations that can panic (out-of-bounds slices, method calls on a nil
  interface) return `Option`, `Option.none` standing for the panic.
-/

namespace Errs

/-- One captured call-stack location (`frame` struct: file, line, function). -/
structure Frame where
  file : String
  line : Nat
  function : String
deriving DecidableEq

/-- A Go `any` value as this package observes it: everything is read back
only through its `fmt.Sprintf("%v", v)` rendering (`display`), so we model
the two shapes the repository's tests use, strings and integers. -/
inductive GoVal : Type where
  | str : String → GoVal
  | int : Int → GoVal
deriving DecidableEq

/-- Go `fmt.Sprintf("%v", v)`: strings print verbatim, integers in decimal. -/
def GoVal.display : GoVal → String
  | .str s => s
  | .int n => toString n

mutual
/-- The `Error` struct of the package: kind, module, message, cause, extra,
stackTrace, captureStackTrace, tags (in source field order). -/
inductive Error : Type where
  | mk (kind module message : String) (cause : GoError)
       (extra : List (String × GoVal)) (stackTrace : List Frame)
       (captureStackTrace : Bool) (tags : List (String × String)) : Error

/-- A Go `error` interface value as it can reach this package:
`nil`, an `Error` (value), a non-nil `*Error` (pointer), or a foreign error
(`id` is the allocation identity deciding interface `==`, `msg` its
`Error()` result, `ty` its `reflect.TypeOf(...).String()`). -/
inductive GoError : Type where
  | nil : GoError
  | sysVal : Error → GoError
  | sysPtr : Error → GoError
  | foreign (id : Nat) (msg ty : String) : GoError
end

def Error.kind : Error → String
  | .mk k _ _ _ _ _ _ _ => k

def Error.module : Error → String
  | .mk _ m _ _ _ _ _ _ => m

def Error.message : Error → String
  | .mk _ _ msg _ _ _ _ _ => msg

def Error.cause : Error → GoError
  | .mk _ _ _ c _ _ _ _ => c

def Error.extra : Error → List (String × GoVal)
  | .mk _ _ _ _ ex _ _ _ => ex

def Error.stackTrace : Error → List Frame
  | .mk _ _ _ _ _ st _ _ => st

def Error.captureStackTrace : Error → Bool
  | .mk _ _ _ _ _ _ cst _ => cst

def Error.tags : Error → List (String × String)
  | .mk _ _ _ _ _ _ _ tg => tg

def GoError.isNil : GoError → Bool
  | .nil => true
  | _ => false

/-- The characters before the last `'.'` of a symbol name, `none` when there
is no dot (`strings.LastIndex(function, ".")` followed by `function[:sep]`). -/
def beforeLastDot : List Char → Option (List Char)
  | [] => Option.none
  | c :: rest =>
    match beforeLastDot rest with
    | some p => some (c :: p)
    | Option.none => if c == '.' then some [] else Option.none

/-- Source `New`: builds the template.  `kind = message`, `module` is derived from the
declaring caller's symbol name (the `runtime.Callers(2, ...)` lookup is an
environment input, passed as `callerFunction`; `Option.none` models
`runtime.Callers` reporting no frame): the part before the last dot, or
`"unknown"`.  `cause`, `extra`, `stackTrace`, `tags` start nil. -/
def New (message : String) (callerFunction : Option String)
    (captureStackTrace : Bool) : Error :=
  let module :=
    match callerFunction with
    | Option.none => "unknown"
    | some fn =>
      match beforeLastDot fn.data with
      | some p => String.mk p
      | Option.none => "unknown"
  .mk message module message .nil [] [] captureStackTrace []

/-- Source `Raise`: new instance from a template.  `fmt.Sprintf(self.message, args...)`
and the `runtime.Callers` walk are environment inputs, passed as
`formattedMessage` and `capturedFrames` (the loop fills `stackTrace` only when
`captureStackTrace` is set; a runtime that reports nothing passes `[]`).
`extra` and `tags` become fresh empty maps, `cause` is nil. -/
def Error.Raise (self : Error) (formattedMessage : String)
    (capturedFrames : List Frame) : Error :=
  .mk self.kind self.module formattedMessage .nil []
    (if self.captureStackTrace then capturedFrames else []) self.captureStackTrace []

def Error.setStackTrace : Error → List Frame → Error
  | .mk k m msg c ex _ cst tg, st => .mk k m msg c ex st cst tg

/-- Source `Skip`: `self.stackTrace = self.stackTrace[frames:]` when capture is
enabled.  The Go slice expression is defined only for `frames ≤ len`;
beyond the length it panics (`Option.none`) — the backing array's capacity
never helps because `s[frames:]` slices up to `len(s)`. -/
def Error.Skip (self : Error) (frames : Nat) : Option Error :=
  if self.captureStackTrace then
    if frames ≤ self.stackTrace.length then
      some (self.setStackTrace (self.stackTrace.drop frames))
    else Option.none
  else some self

/-- Source `With`: `self.message += ": " + fmt.Sprintf(message, args...)`; the
formatting is an environment input, passed already formatted. -/
def Error.With : Error → String → Error
  | .mk k m msg c ex st cst tg, formatted => .mk k m (msg ++ ": " ++ formatted) c ex st cst tg

/-- Go map assignment `m[k] = v` on an association list: overwrite the first
binding of `k` in place, otherwise append. -/
def upsert {α : Type} : List (String × α) → String → α → List (String × α)
  | [], k, v => [(k, v)]
  | p :: rest, k, v => if p.1 == k then (k, v) :: rest else p :: upsert rest k v

/-- Go loop `for key, value := range new { base[key] = value }`. -/
def mergeMap {α : Type} : List (String × α) → List (String × α) → List (String × α)
  | base, [] => base
  | base, p :: rest => mergeMap (upsert base p.1 p.2) rest

/-- Source `Extra`: merges the given pairs into `self.extra`. -/
def Error.Extra : Error → List (String × GoVal) → Error
  | .mk k m msg c ex st cst tg, new => .mk k m msg c (mergeMap ex new) st cst tg

/-- Source `Cause`: `self.cause = err` (overwrites any previous cause). -/
def Error.Cause : Error → GoError → Error
  | .mk k m msg _ ex st cst tg, err => .mk k m msg err ex st cst tg

/-- Source `Tags`: merges, coercing each value with `fmt.Sprintf("%v", value)`. -/
def Error.Tags : Error → List (String × GoVal) → Error
  | .mk k m msg c ex st cst tg, new =>
    .mk k m msg c ex st cst (mergeMap tg (new.map (fun p => (p.1, p.2.display))))

/-- Source `Is`: nil candidate → false; `Error` or `*Error` candidate → compare
`(kind, module)`; anything else (foreign) → false. -/
def Error.Is (self : Error) (err : GoError) : Bool :=
  match err with
  | .nil => false
  | .sysVal other => self.kind == other.kind && self.module == other.module
  | .sysPtr other => self.kind == other.kind && self.module == other.module
  | .foreign _ _ _ => false

mutual
/-- Source `String`: own message, then `": " + cause.Error()` when a cause is set. -/
def Error.str : Error → String
  | .mk _ _ msg c _ _ _ _ => msg ++ causeSuffix c

/-- The `": " + self.cause.Error()` suffix (empty for a nil cause). -/
def causeSuffix : GoError → String
  | .nil => ""
  | .sysVal e => ": " ++ Error.str e
  | .sysPtr e => ": " ++ Error.str e
  | .foreign _ m _ => ": " ++ m
end

/-- Calling `err.Error()` on an interface value: panics (`Option.none`) on nil. -/
def GoError.errString : GoError → Option String
  | .nil => Option.none
  | .sysVal e => some (Error.str e)
  | .sysPtr e => some (Error.str e)
  | .foreign _ m _ => some m

/-- Go interface `==` restricted to where `Has` uses it (`err == cause` with
`cause` foreign): values of different dynamic types are never equal, two
foreign errors are equal exactly when they are the same allocation. -/
def goRefEq : GoError → GoError → Bool
  | .foreign i _ _, .foreign j _ _ => i == j
  | _, _ => false

/-- Source `Has`: `Is`, else recurse into a system cause, else (foreign cause)
`err == cause || err.Error() == cause.Error()` — where `err.Error()` on a nil
candidate is a nil-interface method call, i.e. a panic (`Option.none`). -/
def Error.Has : Error → GoError → Option Bool
  | .mk k m msg c ex st cst tg, err =>
    if Error.Is (.mk k m msg c ex st cst tg) err then some true
    else
      match c with
      | .nil => some false
      | .sysVal cs => Error.Has cs err
      | .sysPtr cs => Error.Has cs err
      | .foreign cid cmsg cty =>
        if goRefEq err (.foreign cid cmsg cty) then some true
        else
          match err.errString with
          | Option.none => Option.none
          | some s => some (s == cmsg)

/-- Go `strings.TrimPrefix(s, "*")`: removes one leading `'*'` when present. -/
def trimStar (s : String) : String :=
  match s.data with
  | '*' :: rest => String.mk rest
  | _ => s

/-- The `file + ":" + strconv.Itoa(line)` key of the shared seen set. -/
def filelineOf (f : Frame) : String := f.file ++ ":" ++ toString f.line

/-- The frame loop of `stringReport` (`for i := len-1; i >= 0; i--` over
`self.stackTrace`, i.e. the reversed list left to right), threading the
accumulated report text, the shared `seenTraces` set and the per-instance
`ellipsis` flag: an unseen location prints its two lines and is recorded,
the first repeat prints `    [...]`, further repeats print nothing. -/
def frameLoop : List Frame → String → List String → Bool → String × List String × Bool
  | [], report, seen, ellipsis => (report, seen, ellipsis)
  | f :: rest, report, seen, ellipsis =>
    let fileline := filelineOf f
    if !(seen.contains fileline) then
      frameLoop rest
        (report ++ "    " ++ fileline ++ "\n" ++ "        " ++ f.function ++ "\n")
        (seen ++ [fileline]) ellipsis
    else if !ellipsis then
      frameLoop rest (report ++ "    [...]\n") seen true
    else
      frameLoop rest report seen ellipsis

/-- The traceback block of one instance: the frame loop when the stack is
non-empty, the `(Stack trace not available)` marker otherwise; paired with
the updated seen set. -/
def tracePart (stack : List Frame) (seen : List String) : String × List String :=
  if stack.length > 0 then
    let r := frameLoop stack.reverse "" seen false
    (r.1, r.2.1)
  else ("    (Stack trace not available)\n", seen)

/-- The `"\x1b[0;31m" + message + "\x1b[0m\n"` colorized message line. -/
def colorLine (m : String) : String := "\x1b[0;31m" ++ m ++ "\x1b[0m\n"

/-- The extra block: `    key=value key2=value2 ...\n` (values through
`fmt.Sprintf("%v", ...)`), empty when the map is empty. -/
def extraLine (extra : List (String × GoVal)) : String :=
  if extra.length > 0 then
    "    " ++ extra.foldl (fun acc kv => acc ++ kv.1 ++ "=" ++ kv.2.display ++ " ") "" ++ "\n"
  else ""

/-- The separator printed before each rendered cause. -/
def sepLine : String := "\nCaused by the following error:\n"

/-- The section printed for a foreign cause: no stack, colorized message,
trimmed runtime type name in parentheses. -/
def foreignCauseSection (msg ty : String) : String :=
  "    (Stack trace not available)\n" ++ "\x1b[0;31m" ++ msg ++ "\x1b[0m ("
    ++ trimStar ty ++ ")\n"

/-- Source `stringReport(all, seenTraces)`: traceback block, colorized message,
extra block, then (when `all` and a cause is attached) the separator and the
cause's own section — recursively for a system cause, the foreign section
for anything else.  Returns the report together with the threaded seen set. -/
def Error.stringReport : Error → Bool → List String → String × List String
  | .mk _ _ msg c ex st _ _, all, seen =>
    let t := tracePart st seen
    let report := t.1 ++ colorLine msg ++ extraLine ex
    if all then
      match c with
      | .nil => (report, t.2)
      | .sysVal cs =>
        let r2 := Error.stringReport cs all t.2
        (report ++ sepLine ++ r2.1, r2.2)
      | .sysPtr cs =>
        let r2 := Error.stringReport cs all t.2
        (report ++ sepLine ++ r2.1, r2.2)
      | .foreign _ cm ty => (report ++ sepLine ++ foreignCauseSection cm ty, t.2)
    else (report, t.2)

/-- Source `StringReport(all...)` (the Go default `all = true` is passed explicitly):
bright header with the flattened `String()`, the `Traceback` banner, then the
chain report started from a fresh empty seen set. -/
def Error.StringReport (self : Error) (all : Bool) : String :=
  "\x1b[1;91m" ++ self.str ++ "\x1b[0m\n\n" ++ "Traceback (most recent call last):\n"
    ++ (self.stringReport all []).1

/-- The `[0-9;]` body of an ANSI escape: consume digits and semicolons up to the
closing `'m'`; `none` when the sequence is not closed by an `'m'`. -/
def dropAnsiBody : List Char → Option (List Char)
  | [] => Option.none
  | c :: rest =>
    if c == 'm' then some rest
    else if c.isDigit || c == ';' then dropAnsiBody rest
    else Option.none

theorem dropAnsiBody_length : ∀ (l l2 : List Char), dropAnsiBody l = some l2 → l2.length ≤ l.length := by
  intro l
  induction l with
  | nil => intro l2 h; simp [dropAnsiBody] at h
  | cons c rest ih =>
    intro l2 h
    simp only [dropAnsiBody] at h
    split at h
    · cases h; simp
    · split at h
      · have := ih l2 h
        simp; omega
      · cases h

/-- Regex replace `_ANSI_COLOR_PATTERN.ReplaceAllString(s, "")` on the character list:
every `ESC [ [0-9;]* m` run is removed, anything else is kept (an unclosed
escape does not match the pattern, so its characters stay). -/
def stripAnsiAux : List Char → List Char
  | [] => []
  | '\x1b' :: '[' :: rest2 =>
    (match h : dropAnsiBody rest2 with
     | some rest3 => stripAnsiAux rest3
     | Option.none => '\x1b' :: '[' :: stripAnsiAux rest2)
  | c :: rest => c :: stripAnsiAux rest
  termination_by l => l.length
  decreasing_by
  · have := dropAnsiBody_length _ _ h
    simp; omega
  · simp; omega
  · simp

/-- Strips the ANSI color escapes (`_ANSI_COLOR_PATTERN`) from a string. -/
def stripAnsi (s : String) : String := String.mk (stripAnsiAux s.data)

/-- One record of the Sentry event's `Exception` list. -/
structure SentryException where
  type : String
  value : String
  module : String
  stacktrace : Option (List Frame)

/-- The Sentry event fields this package fills (`sentry.NewEvent` starts the
maps and the exception list empty). -/
structure SentryEvent where
  level : String
  message : String
  tags : List (String × String)
  extra : List (String × GoVal)
  exception : List SentryException

/-- Source `sentryReport`: first the cause (recursively for a system cause, one
`{type, value}` record for a foreign one), then this instance's `extra` and
`tags` merged into the event maps, then this instance's own exception record
(kind, flattened `String()`, module, frames re-emitted innermost first). -/
def Error.sentryReport : Error → SentryEvent → SentryEvent
  | .mk k m msg c ex st cst tg, ev =>
    let ev1 : SentryEvent :=
      match c with
      | .nil => ev
      | .sysVal cs => Error.sentryReport cs ev
      | .sysPtr cs => Error.sentryReport cs ev
      | .foreign _ cm ty =>
        { ev with exception := ev.exception ++
            [{ type := trimStar ty, value := cm, module := "", stacktrace := Option.none }] }
    let ev2 := { ev1 with extra := mergeMap ev1.extra ex }
    let ev3 := { ev2 with tags := mergeMap ev2.tags tg }
    { ev3 with
      exception := ev3.exception ++
        [{ type := k, value := Error.str (.mk k m msg c ex st cst tg), module := m,
           stacktrace := if st.length > 0 then some st.reverse else Option.none }] }

/-- Source `SentryReport`: a fresh event with `level = error`, the color-stripped
full text report as message and the `package` tag, then the chain walk. -/
def Error.SentryReport (self : Error) : SentryEvent :=
  let base : SentryEvent :=
    ⟨"error", stripAnsi (self.StringReport true), [("package", self.module)], [], []⟩
  self.sentryReport base

/-! ### Observations used to state the claims -/

/-- The `(kind, module)` pair of a candidate, `none` when the candidate is
nil or not an instance of this package. -/
def GoError.kindModule : GoError → Option (String × String)
  | .sysVal e => some (e.kind, e.module)
  | .sysPtr e => some (e.kind, e.module)
  | _ => Option.none

/-- Spec-side membership predicate, following the spec's words for `Has`:
`Is(candidate)` holds, or the cause is a system instance whose membership
holds recursively, or the cause is a foreign leaf that is reference-identical
to the candidate or whose display message equals the candidate's. -/
def hasSpec : Error → GoError → Bool
  | .mk k m msg c ex st cst tg, err =>
    Error.Is (.mk k m msg c ex st cst tg) err ||
      match c with
      | .nil => false
      | .sysVal cs => hasSpec cs err
      | .sysPtr cs => hasSpec cs err
      | .foreign cid cmsg cty =>
        goRefEq err (.foreign cid cmsg cty) || err.errString == some cmsg

/-- Chain depth as the claims count it: one per system-level link, plus one
for a terminal foreign leaf. -/
def chainDepth : Error → Nat
  | .mk _ _ _ c _ _ _ _ =>
    (match c with
     | .nil => 0
     | .sysVal cs => chainDepth cs
     | .sysPtr cs => chainDepth cs
     | .foreign _ _ _ => 1) + 1

/-- Spec-side shape of the Sentry exception list: the cause's records first
(innermost first), the receiver's own record last. -/
def chainRecords : Error → List SentryException
  | .mk k m msg c ex st cst tg =>
    (match c with
     | .nil => []
     | .sysVal cs => chainRecords cs
     | .sysPtr cs => chainRecords cs
     | .foreign _ cm ty =>
       [{ type := trimStar ty, value := cm, module := "", stacktrace := Option.none }])
    ++ [{ type := k, value := Error.str (.mk k m msg c ex st cst tg), module := m,
          stacktrace := if st.length > 0 then some st.reverse else Option.none }]

/-- Whether the cause chain terminates in a foreign (non-system) error. -/
def chainEndsForeign : Error → Bool
  | .mk _ _ _ c _ _ _ _ =>
    match c with
    | .nil => false
    | .sysVal cs => chainEndsForeign cs
    | .sysPtr cs => chainEndsForeign cs
    | .foreign _ _ _ => true

/-- How many times the `stringReport` frame loop prints location `fl`
(i.e. takes its not-yet-seen branch at a frame whose `file:line` is `fl`),
mirroring `frameLoop`'s recursion on the same inputs. -/
def framePrints (fl : String) : List Frame → List String → Nat
  | [], _ => 0
  | f :: rest, seen =>
    let fileline := filelineOf f
    if !(seen.contains fileline) then
      (if fileline == fl then 1 else 0) + framePrints fl rest (seen ++ [fileline])
    else framePrints fl rest seen

/-- How many times the `stringReport` frame loop prints the `    [...]`
elision marker, mirroring `frameLoop`'s recursion on the same inputs. -/
def elisionCount : List Frame → List String → Bool → Nat
  | [], _, _ => 0
  | f :: rest, seen, ellipsis =>
    let fileline := filelineOf f
    if !(seen.contains fileline) then elisionCount rest (seen ++ [fileline]) ellipsis
    else if !ellipsis then 1 + elisionCount rest seen true
    else elisionCount rest seen ellipsis

/-! ### Concrete instances used by witnesses and counterexamples -/

def frA : Frame := { file := "app/view.go", line := 20, function := "app.view" }

def frB : Frame := { file := "app/repo.go", line := 55, function := "app.repository" }

def frS : Frame := { file := "app/main.go", line := 7, function := "app.main" }

/-- The foreign `other library error` value, a `*errors.errorString` allocation. -/
def foo : GoError := .foreign 0 "other library error" "*errors.errorString"

/-- Template `New("cannot deposit")` declared from module `app`. -/
def tDeposit : Error := New "cannot deposit" (some "app.init") true

/-- Template `New("user %s not found")` declared from module `app`. -/
def tUser : Error := New "user %s not found" (some "app.init") true

/-- Instance `tUser.Raise("Alex")` with frames captured in `repository`. -/
def eUser : Error := tUser.Raise "user Alex not found" [frB, frS]

/-- The test scenario's outer error:
`tDeposit.Raise().With("cannot add money to account %s", "ARN3107").Cause(...)`
wrapping `eUser` which wraps the foreign `foo`. -/
def eDeposit : Error :=
  ((tDeposit.Raise "cannot deposit" [frA, frS]).With
      "cannot add money to account ARN3107").Cause (.sysPtr (eUser.Cause foo))

/-! ### Association-list (Go map) lemmas -/

theorem lookup_cons_self {α : Type} (p : String × α) (es : List (String × α)) :
    List.lookup p.1 (p :: es) = some p.2 := by
  rcases p with ⟨k, b⟩
  simp [List.lookup]

theorem lookup_cons_ne {α : Type} (p : String × α) (es : List (String × α)) (a : String)
    (h : a ≠ p.1) : List.lookup a (p :: es) = List.lookup a es := by
  rcases p with ⟨k, b⟩
  have hb : (a == k) = false := by simpa using h
  simp [List.lookup, hb]

theorem lookup_upsert_self {α : Type} (l : List (String × α)) (k : String) (v : α) :
    (upsert l k v).lookup k = some v := by
  induction l with
  | nil => exact lookup_cons_self (k, v) []
  | cons p rest ih =>
    by_cases h : p.1 = k
    · rw [upsert]
      simp only [h, beq_self_eq_true, if_true]
      exact lookup_cons_self (k, v) rest
    · have hb : (p.1 == k) = false := by simpa using h
      rw [upsert]
      simp only [hb, Bool.false_eq_true, if_false]
      rw [lookup_cons_ne p _ k (Ne.symm h)]
      exact ih

theorem lookup_upsert_ne {α : Type} (l : List (String × α)) (k k2 : String) (v : α) (h : k2 ≠ k) :
    (upsert l k v).lookup k2 = l.lookup k2 := by
  induction l with
  | nil =>
    show List.lookup k2 ((k, v) :: []) = List.lookup k2 []
    rw [lookup_cons_ne ⟨k, v⟩ [] k2 h]
  | cons p rest ih =>
    by_cases hp : p.1 = k
    · rw [upsert]
      simp only [hp, beq_self_eq_true, if_true]
      rw [lookup_cons_ne ⟨k, v⟩ rest k2 h, lookup_cons_ne p rest k2 (by rw [hp]; exact h)]
    · have hbp : (p.1 == k) = false := by simpa using hp
      rw [upsert]
      simp only [hbp, Bool.false_eq_true, if_false]
      by_cases h2 : k2 = p.1
      · subst h2
        rw [lookup_cons_self p _, lookup_cons_self p rest]
      · rw [lookup_cons_ne p _ k2 h2, lookup_cons_ne p rest k2 h2]
        exact ih

theorem lookup_eq_none_of_not_mem {α : Type} (l : List (String × α)) (k : String)
    (h : ¬ k ∈ l.map Prod.fst) : l.lookup k = Option.none := by
  induction l with
  | nil => simp [List.lookup]
  | cons p rest ih =>
    rw [List.map_cons, List.mem_cons, not_or] at h
    rw [lookup_cons_ne p rest k h.1]
    exact ih h.2

theorem lookup_mergeMap_none {α : Type} :
    ∀ (m base : List (String × α)) (k : String),
      m.lookup k = Option.none → (mergeMap base m).lookup k = base.lookup k
  | [], _, _, _ => rfl
  | p :: rest, base, k, h => by
    by_cases hk : k = p.1
    · subst hk
      rw [lookup_cons_self p rest] at h
      cases h
    · rw [lookup_cons_ne p rest k hk] at h
      rw [mergeMap, lookup_mergeMap_none rest (upsert base p.1 p.2) k h,
        lookup_upsert_ne base p.1 k p.2 hk]

theorem lookup_mergeMap_some {α : Type} :
    ∀ (m base : List (String × α)) (k : String) (v : α),
      (m.map Prod.fst).Nodup → m.lookup k = some v → (mergeMap base m).lookup k = some v
  | [], _, _, _, _, h => by cases h
  | p :: rest, base, k, v, hnd, h => by
    rw [List.map_cons, List.nodup_cons] at hnd
    by_cases hk : k = p.1
    · subst hk
      rw [lookup_cons_self p rest] at h
      have hnone : rest.lookup p.1 = Option.none :=
        lookup_eq_none_of_not_mem rest p.1 hnd.1
      rw [mergeMap, lookup_mergeMap_none rest (upsert base p.1 p.2) p.1 hnone,
        lookup_upsert_self base p.1 p.2]
      exact h
    · rw [lookup_cons_ne p rest k hk] at h
      rw [mergeMap]
      exact lookup_mergeMap_some rest (upsert base p.1 p.2) k v hnd.2 h

theorem lookup_map_val {α β : Type} (f : α → β) :
    ∀ (l : List (String × α)) (k : String) (v : α),
      l.lookup k = some v → (l.map (fun p => (p.1, f p.2))).lookup k = some (f v)
  | [], _, _, h => by cases h
  | p :: rest, k, v, h => by
    by_cases hk : k = p.1
    · subst hk
      rw [lookup_cons_self p rest] at h
      cases h
      rw [List.map_cons]
      exact lookup_cons_self (p.1, f p.2) _
    · rw [lookup_cons_ne p rest k hk] at h
      rw [List.map_cons, lookup_cons_ne (p.1, f p.2) _ k hk]
      exact lookup_map_val f rest k v h

/-! ### Claims -/

/-- C1 counterexample: `eDeposit` is a raised instance with stack capture
enabled and 2 captured frames, yet `Skip 3` does not truncate to an empty
trace — the slice expression `stackTrace[3:]` is out of bounds, i.e. the call
panics (modelled as `Option.none`), contradicting the claim that `Skip`
"does not fault" for `n` beyond the frame count. -/
theorem C1_skip_counterexample :
    eDeposit.captureStackTrace = true ∧ eDeposit.stackTrace.length = 2 ∧
      eDeposit.Skip 3 = Option.none ∧ eDeposit.Skip 3 ≠ some (eDeposit.setStackTrace []) := by
  refine ⟨rfl, rfl, rfl, ?_⟩
  intro h
  rw [show eDeposit.Skip 3 = Option.none from rfl] at h
  cases h

/-- C1 (amended): with stack capture enabled, `Skip n` truncates the stack
trace for `n` up to the captured frame count (empty exactly at the count),
but for `n` strictly greater than the frame count the slice is out of bounds
and `Skip` panics (`Option.none`) instead of returning the instance. -/
theorem C1_skip_amended (e1 e2 : Error) (n1 n2 : Nat)
    (h1 : e1.captureStackTrace = true) (h2 : e2.captureStackTrace = true)
    (hle : n1 ≤ e1.stackTrace.length) (hgt : e2.stackTrace.length < n2) :
    e1.Skip n1 = some (e1.setStackTrace (e1.stackTrace.drop n1))
    ∧ e1.Skip e1.stackTrace.length = some (e1.setStackTrace [])
    ∧ e2.Skip n2 = Option.none := by
  refine ⟨?_, ?_, ?_⟩
  · rw [Error.Skip, h1, if_pos rfl, if_pos hle]
  · rw [Error.Skip, h1, if_pos rfl, if_pos (Nat.le_refl _), List.drop_length]
  · rw [Error.Skip, h2, if_pos rfl, if_neg (Nat.not_le_of_lt hgt)]

theorem C1_skip_amended_witness :
    eDeposit.Skip 1 = some (eDeposit.setStackTrace (eDeposit.stackTrace.drop 1))
    ∧ eDeposit.Skip eDeposit.stackTrace.length = some (eDeposit.setStackTrace [])
    ∧ eDeposit.Skip 3 = Option.none :=
  C1_skip_amended eDeposit eDeposit 1 3 rfl rfl (by decide) (by decide)

/-- C2: `Is(candidate)` is true exactly when the candidate is a non-nil
instance of this package (value or pointer) whose `(kind, module)` pair
equals the receiver's; in particular any two raises of the same template
recognise each other regardless of their formatted messages and captured
stacks. -/
theorem C2_is_identity :
    (∀ (e : Error) (err : GoError),
      e.Is err = true ↔ err.kindModule = some (e.kind, e.module))
    ∧ (∀ (t : Error) (ma mb : String) (sa sb : List Frame),
      (t.Raise ma sa).Is (GoError.sysPtr (t.Raise mb sb)) = true) := by
  constructor
  · intro e err
    cases err with
    | nil => simp [Error.Is, GoError.kindModule]
    | sysVal o =>
      simp only [Error.Is, GoError.kindModule, Bool.and_eq_true, beq_iff_eq,
        Option.some.injEq, Prod.mk.injEq]
      constructor
      · rintro ⟨h1, h2⟩; exact ⟨h1.symm, h2.symm⟩
      · rintro ⟨h1, h2⟩; exact ⟨h1.symm, h2.symm⟩
    | sysPtr o =>
      simp only [Error.Is, GoError.kindModule, Bool.and_eq_true, beq_iff_eq,
        Option.some.injEq, Prod.mk.injEq]
      constructor
      · rintro ⟨h1, h2⟩; exact ⟨h1.symm, h2.symm⟩
      · rintro ⟨h1, h2⟩; exact ⟨h1.symm, h2.symm⟩
    | foreign i m t => simp [Error.Is, GoError.kindModule]
  · intro t ma mb sa sb
    simp [Error.Raise, Error.Is, Error.kind, Error.module]

/-- C8: `With` is append-only and composable: each call extends the message
with `": " ++ formatted`, leaving the existing prefix intact, so two calls
append `": x: y"`. -/
theorem C8_with_append :
    (∀ (e : Error) (x y : String),
      ((e.With x).With y).message = e.message ++ ": " ++ x ++ ": " ++ y)
    ∧ (∀ (e : Error) (s : String), (e.With s).message = e.message ++ ": " ++ s) := by
  constructor
  · intro e x y
    rcases e with ⟨k, m, msg, c, ex, st, cst, tg⟩
    rfl
  · intro e s
    rcases e with ⟨k, m, msg, c, ex, st, cst, tg⟩
    rfl

/-- C9: `Extra` and `Tags` merge with last-write-wins across calls (the later
merge's binding for a key overwrites anything earlier), keys the later merge
does not mention keep their earlier binding, and `Tags` coerces each merged
value to its `%v` display string at merge time. -/
theorem C9_merge_last_write_wins (e : Error) (m1 m2 tm : List (String × GoVal))
    (k k2 : String) (v w : GoVal)
    (hnd : (m2.map Prod.fst).Nodup) (hndt : (tm.map Prod.fst).Nodup)
    (hv : m2.lookup k = some v) (hk2 : m2.lookup k2 = Option.none)
    (hw : tm.lookup k = some w) :
    (((e.Extra m1).Extra m2).extra).lookup k = some v
    ∧ (((e.Extra m1).Extra m2).extra).lookup k2 = ((e.Extra m1).extra).lookup k2
    ∧ ((e.Tags tm).tags).lookup k = some w.display := by
  rcases e with ⟨ek, em, emsg, ec, eex, est, ecst, etg⟩
  refine ⟨?_, ?_, ?_⟩
  · rw [show (((Error.mk ek em emsg ec eex est ecst etg).Extra m1).Extra m2).extra
        = mergeMap (mergeMap eex m1) m2 from rfl]
    exact lookup_mergeMap_some m2 (mergeMap eex m1) k v hnd hv
  · rw [show (((Error.mk ek em emsg ec eex est ecst etg).Extra m1).Extra m2).extra
        = mergeMap (mergeMap eex m1) m2 from rfl,
      show ((Error.mk ek em emsg ec eex est ecst etg).Extra m1).extra
        = mergeMap eex m1 from rfl]
    exact lookup_mergeMap_none m2 (mergeMap eex m1) k2 hk2
  · rw [show ((Error.mk ek em emsg ec eex est ecst etg).Tags tm).tags
        = mergeMap etg (tm.map (fun p => (p.1, p.2.display))) from rfl]
    refine lookup_mergeMap_some _ etg k w.display ?_ ?_
    · rw [show (tm.map (fun p => (p.1, p.2.display))).map Prod.fst = tm.map Prod.fst by
        rw [List.map_map]; rfl]
      exact hndt
    · exact lookup_map_val GoVal.display tm k w hw

theorem C9_merge_last_write_wins_witness :
    ((((New "e" Option.none true).Extra [("userID", GoVal.int 1)]).Extra
        [("userID", GoVal.int 310700), ("accountID", GoVal.str "ARN3107")]).extra).lookup "userID"
      = some (GoVal.int 310700)
    ∧ ((((New "e" Option.none true).Extra [("userID", GoVal.int 1)]).Extra
        [("userID", GoVal.int 310700), ("accountID", GoVal.str "ARN3107")]).extra).lookup "other"
      = (((New "e" Option.none true).Extra [("userID", GoVal.int 1)]).extra).lookup "other"
    ∧ (((New "e" Option.none true).Tags [("userID", GoVal.int 310700)]).tags).lookup "userID"
      = some (GoVal.int 310700).display :=
  C9_merge_last_write_wins (New "e" Option.none true) [("userID", GoVal.int 1)]
    [("userID", GoVal.int 310700), ("accountID", GoVal.str "ARN3107")]
    [("userID", GoVal.int 310700)] "userID" "other" (GoVal.int 310700) (GoVal.int 310700)
    (by decide) (by decide) (by decide) (by decide) (by decide)

/-- C10: `Has` on a nil candidate is partial: it panics (`Option.none`)
exactly when the cause chain terminates in a foreign error (the foreign-leaf
comparison calls `Error()` on the nil interface), and returns `false` when
there is no cause or the chain is all system instances. -/
theorem C10_has_nil_partiality : ∀ (e : Error),
    e.Has GoError.nil = (if chainEndsForeign e then Option.none else some false)
  | .mk k m msg c ex st cst tg => by
    cases c with
    | nil => simp [Error.Has, Error.Is, chainEndsForeign]
    | sysVal cs =>
      have ih := C10_has_nil_partiality cs
      simp [Error.Has, Error.Is, chainEndsForeign, ih]
    | sysPtr cs =>
      have ih := C10_has_nil_partiality cs
      simp [Error.Has, Error.Is, chainEndsForeign, ih]
    | foreign cid cmsg cty =>
      simp [Error.Has, Error.Is, chainEndsForeign, goRefEq, GoError.errString]

/-- The C4 scenario error: `Declare("cannot deposit")` → `Raise()` →
`With("cannot add money to account %s", "ARN3107")` → `Cause` of a foreign
error whose message is `"other library error"`. -/
def eC4 : Error :=
  ((tDeposit.Raise "cannot deposit" [frA, frS]).With
      "cannot add money to account ARN3107").Cause foo

/-- C3: for every non-nil candidate, `Has` returns (without panicking)
exactly the spec's membership predicate: `Is`, or the system cause has the
candidate recursively, or the foreign terminal cause is reference-identical
to the candidate or textually equal to its display message; with no cause
and `Is` false it is `false`. -/
theorem C3_has_membership : ∀ (e : Error) (err : GoError), err.isNil = false →
    e.Has err = some (hasSpec e err)
  | .mk k m msg c ex st cst tg, err, hnn => by
    cases c with
    | nil =>
      cases hI : Error.Is (.mk k m msg .nil ex st cst tg) err <;>
        simp [Error.Has, hasSpec, hI]
    | sysVal cs =>
      have ih := C3_has_membership cs err hnn
      cases hI : Error.Is (.mk k m msg (.sysVal cs) ex st cst tg) err <;>
        simp [Error.Has, hasSpec, hI, ih]
    | sysPtr cs =>
      have ih := C3_has_membership cs err hnn
      cases hI : Error.Is (.mk k m msg (.sysPtr cs) ex st cst tg) err <;>
        simp [Error.Has, hasSpec, hI, ih]
    | foreign cid cmsg cty =>
      cases hI : Error.Is (.mk k m msg (.foreign cid cmsg cty) ex st cst tg) err
      · cases hR : goRefEq err (.foreign cid cmsg cty)
        · cases err with
          | nil => simp [GoError.isNil] at hnn
          | sysVal o => simp [Error.Has, hasSpec, hI, hR, GoError.errString]
          | sysPtr o => simp [Error.Has, hasSpec, hI, hR, GoError.errString]
          | foreign i mm tt => simp [Error.Has, hasSpec, hI, hR, GoError.errString]
        · simp [Error.Has, hasSpec, hI, hR]
      · simp [Error.Has, hasSpec, hI]

theorem C3_has_membership_witness :
    Error.Has eDeposit foo = some (hasSpec eDeposit foo) :=
  C3_has_membership eDeposit foo rfl

/-- C4: `String()`/`Error()` returns the receiver's own message, with
`": " ++ cause.Error()` appended exactly when a cause is attached; on the
spec's deposit scenario the flattened line is exactly as claimed. -/
theorem C4_error_flattening (e1 e2 : Error) (s : String)
    (h1 : e1.cause = GoError.nil) (h2 : (e2.cause).errString = some s) :
    Error.str e1 = e1.message
    ∧ Error.str e2 = e2.message ++ ": " ++ s
    ∧ Error.str eC4 = "cannot deposit: cannot add money to account ARN3107: other library error" := by
  refine ⟨?_, ?_, rfl⟩
  · rcases e1 with ⟨k, m, msg, c, ex, st, cst, tg⟩
    rw [show Error.cause (.mk k m msg c ex st cst tg) = c from rfl] at h1
    subst h1
    show msg ++ causeSuffix .nil = msg
    rw [causeSuffix, String.append_empty]
  · rcases e2 with ⟨k, m, msg, c, ex, st, cst, tg⟩
    rw [show Error.cause (.mk k m msg c ex st cst tg) = c from rfl] at h2
    show msg ++ causeSuffix c = Error.message (.mk k m msg c ex st cst tg) ++ ": " ++ s
    rw [show Error.message (.mk k m msg c ex st cst tg) = msg from rfl, String.append_assoc]
    cases c with
    | nil => cases h2
    | sysVal cs =>
      rw [GoError.errString] at h2
      cases h2
      rfl
    | sysPtr cs =>
      rw [GoError.errString] at h2
      cases h2
      rfl
    | foreign i mm tt =>
      rw [GoError.errString] at h2
      cases h2
      rfl

theorem C4_error_flattening_witness :
    Error.str tDeposit = tDeposit.message
    ∧ Error.str eC4 = eC4.message ++ ": " ++ "other library error"
    ∧ Error.str eC4 = "cannot deposit: cannot add money to account ARN3107: other library error" :=
  C4_error_flattening tDeposit eC4 "other library error" rfl rfl

theorem sentryReport_exception_eq : ∀ (e : Error) (ev : SentryEvent),
    (Error.sentryReport e ev).exception = ev.exception ++ chainRecords e
  | .mk k m msg c ex st cst tg, ev => by
    cases c with
    | nil => simp [Error.sentryReport, chainRecords]
    | sysVal cs =>
      have ih := sentryReport_exception_eq cs ev
      simp [Error.sentryReport, chainRecords, ih]
    | sysPtr cs =>
      have ih := sentryReport_exception_eq cs ev
      simp [Error.sentryReport, chainRecords, ih]
    | foreign i cm ty => simp [Error.sentryReport, chainRecords]

theorem chainRecords_length_eq : ∀ (e : Error), (chainRecords e).length = chainDepth e
  | .mk k m msg c ex st cst tg => by
    cases c with
    | nil => simp [chainRecords, chainDepth]
    | sysVal cs =>
      have ih := chainRecords_length_eq cs
      simp [chainRecords, chainDepth, ih]
    | sysPtr cs =>
      have ih := chainRecords_length_eq cs
      simp [chainRecords, chainDepth, ih]
    | foreign i cm ty => simp [chainRecords, chainDepth]

/-- C5: the Sentry event's exception list is exactly the chain's records,
innermost first and the receiver last, so its length is the chain depth
(one per system link plus one for a terminal foreign leaf). -/
theorem C5_sentry_exception_list (e : Error) :
    (e.SentryReport).exception = chainRecords e
    ∧ (e.SentryReport).exception.length = chainDepth e := by
  have h2 : (e.SentryReport).exception = chainRecords e := by
    rw [Error.SentryReport]
    rw [sentryReport_exception_eq e _]
    rfl
  exact ⟨h2, by rw [h2]; exact chainRecords_length_eq e⟩

/-- C7: on a three-level chain system → system → foreign, `StringReport true`
is the header plus three message sections joined by exactly one
`"Caused by the following error:"` separator per causal link (two in total),
while the `all = false` rendering is the receiver's own section alone —
no separator and no recursion into the cause. -/
theorem C7_report_sections (e1 e2 : Error) (cid : Nat) (cmsg cty : String)
    (s : List String)
    (hc1 : e1.cause = GoError.sysVal e2 ∨ e1.cause = GoError.sysPtr e2)
    (hc2 : e2.cause = GoError.foreign cid cmsg cty) :
    e1.StringReport true
      = "\x1b[1;91m" ++ Error.str e1 ++ "\x1b[0m\n\n" ++ "Traceback (most recent call last):\n"
        ++ (tracePart e1.stackTrace []).1 ++ colorLine e1.message ++ extraLine e1.extra
        ++ sepLine
        ++ (tracePart e2.stackTrace (tracePart e1.stackTrace []).2).1
        ++ colorLine e2.message ++ extraLine e2.extra
        ++ sepLine
        ++ foreignCauseSection cmsg cty
    ∧ (Error.stringReport e1 false s).1
        = (tracePart e1.stackTrace s).1 ++ colorLine e1.message ++ extraLine e1.extra
    ∧ e1.StringReport false
        = "\x1b[1;91m" ++ Error.str e1 ++ "\x1b[0m\n\n" ++ "Traceback (most recent call last):\n"
          ++ (tracePart e1.stackTrace []).1 ++ colorLine e1.message ++ extraLine e1.extra := by
  rcases e1 with ⟨k1, m1, msg1, c1, ex1, st1, cst1, tg1⟩
  rcases e2 with ⟨k2, m2, msg2, c2, ex2, st2, cst2, tg2⟩
  simp only [Error.cause] at hc1 hc2
  subst hc2
  rcases hc1 with h | h <;> subst h <;>
    simp [Error.StringReport, Error.stringReport, Error.str, Error.message, Error.extra,
      Error.stackTrace, String.append_assoc]

theorem C7_report_sections_witness :
    eDeposit.StringReport true
      = "\x1b[1;91m" ++ Error.str eDeposit ++ "\x1b[0m\n\n" ++ "Traceback (most recent call last):\n"
        ++ (tracePart eDeposit.stackTrace []).1 ++ colorLine eDeposit.message ++ extraLine eDeposit.extra
        ++ sepLine
        ++ (tracePart (eUser.Cause foo).stackTrace (tracePart eDeposit.stackTrace []).2).1
        ++ colorLine (eUser.Cause foo).message ++ extraLine (eUser.Cause foo).extra
        ++ sepLine
        ++ foreignCauseSection "other library error" "*errors.errorString"
    ∧ (Error.stringReport eDeposit false []).1
        = (tracePart eDeposit.stackTrace []).1 ++ colorLine eDeposit.message ++ extraLine eDeposit.extra
    ∧ eDeposit.StringReport false
        = "\x1b[1;91m" ++ Error.str eDeposit ++ "\x1b[0m\n\n" ++ "Traceback (most recent call last):\n"
          ++ (tracePart eDeposit.stackTrace []).1 ++ colorLine eDeposit.message ++ extraLine eDeposit.extra :=
  C7_report_sections eDeposit (eUser.Cause foo) 0 "other library error" "*errors.errorString"
    [] (Or.inr rfl) rfl

/-! ### Frame-loop lemmas for the de-duplication claim -/

theorem contains_eq_true_of_mem {l : List String} {x : String} (h : x ∈ l) :
    l.contains x = true := by
  simpa using h

theorem mem_of_contains_eq_true {l : List String} {x : String} (h : l.contains x = true) :
    x ∈ l := by
  simpa using h

theorem frameLoop_nil (r : String) (s : List String) (el : Bool) :
    frameLoop [] r s el = (r, s, el) := rfl

theorem frameLoop_cons_new (f : Frame) (rest : List Frame) (r : String) (s : List String)
    (el : Bool) (h : s.contains (filelineOf f) = false) :
    frameLoop (f :: rest) r s el
      = frameLoop rest (r ++ "    " ++ filelineOf f ++ "\n" ++ "        " ++ f.function ++ "\n")
          (s ++ [filelineOf f]) el := by
  rw [frameLoop, h]
  rfl

theorem frameLoop_cons_rep_first (f : Frame) (rest : List Frame) (r : String)
    (s : List String) (h : s.contains (filelineOf f) = true) :
    frameLoop (f :: rest) r s false = frameLoop rest (r ++ "    [...]\n") s true := by
  rw [frameLoop, h]
  rfl

theorem frameLoop_cons_rep (f : Frame) (rest : List Frame) (r : String)
    (s : List String) (h : s.contains (filelineOf f) = true) :
    frameLoop (f :: rest) r s true = frameLoop rest r s true := by
  rw [frameLoop, h]
  rfl

theorem framePrints_cons_new (fl : String) (f : Frame) (rest : List Frame)
    (s : List String) (h : s.contains (filelineOf f) = false) :
    framePrints fl (f :: rest) s
      = (if filelineOf f == fl then 1 else 0) + framePrints fl rest (s ++ [filelineOf f]) := by
  rw [framePrints, h]
  rfl

theorem framePrints_cons_rep (fl : String) (f : Frame) (rest : List Frame)
    (s : List String) (h : s.contains (filelineOf f) = true) :
    framePrints fl (f :: rest) s = framePrints fl rest s := by
  rw [framePrints, h]
  rfl

theorem elisionCount_cons_new (f : Frame) (rest : List Frame) (s : List String) (el : Bool)
    (h : s.contains (filelineOf f) = false) :
    elisionCount (f :: rest) s el = elisionCount rest (s ++ [filelineOf f]) el := by
  rw [elisionCount, h]
  rfl

theorem elisionCount_cons_rep_first (f : Frame) (rest : List Frame) (s : List String)
    (h : s.contains (filelineOf f) = true) :
    elisionCount (f :: rest) s false = 1 + elisionCount rest s true := by
  rw [elisionCount, h]
  rfl

theorem elisionCount_cons_rep (f : Frame) (rest : List Frame) (s : List String)
    (h : s.contains (filelineOf f) = true) :
    elisionCount (f :: rest) s true = elisionCount rest s true := by
  rw [elisionCount, h]
  rfl

theorem frameLoop_report_mono : ∀ (fs : List Frame) (r : String) (s : List String) (el : Bool),
    ∃ out, (frameLoop fs r s el).1 = r ++ out
  | [], r, s, el => ⟨"", by rw [frameLoop_nil, String.append_empty]⟩
  | f :: rest, r, s, el => by
    cases hs : s.contains (filelineOf f) with
    | false =>
      obtain ⟨out, ho⟩ := frameLoop_report_mono rest
        (r ++ "    " ++ filelineOf f ++ "\n" ++ "        " ++ f.function ++ "\n")
        (s ++ [filelineOf f]) el
      refine ⟨"    " ++ filelineOf f ++ "\n" ++ "        " ++ f.function ++ "\n" ++ out, ?_⟩
      rw [frameLoop_cons_new f rest r s el hs, ho]
      simp [String.append_assoc]
    | true =>
      cases el with
      | false =>
        obtain ⟨out, ho⟩ := frameLoop_report_mono rest (r ++ "    [...]\n") s true
        refine ⟨"    [...]\n" ++ out, ?_⟩
        rw [frameLoop_cons_rep_first f rest r s hs, ho, String.append_assoc]
      | true =>
        obtain ⟨out, ho⟩ := frameLoop_report_mono rest r s true
        exact ⟨out, by rw [frameLoop_cons_rep f rest r s hs, ho]⟩

theorem frameLoop_seen_mem : ∀ (fs : List Frame) (r : String) (s : List String) (el : Bool)
    (fl : String), (fl ∈ s ∨ fl ∈ fs.map filelineOf) → fl ∈ (frameLoop fs r s el).2.1
  | [], r, s, el, fl, h => by
    rw [frameLoop_nil]
    rcases h with h | h
    · exact h
    · simp at h
  | f :: rest, r, s, el, fl, h => by
    cases hs : s.contains (filelineOf f) with
    | false =>
      rw [frameLoop_cons_new f rest r s el hs]
      apply frameLoop_seen_mem
      rcases h with h | h
      · exact Or.inl (List.mem_append_left _ h)
      · rw [List.map_cons, List.mem_cons] at h
        rcases h with h | h
        · exact Or.inl (List.mem_append_right _ (by rw [h]; exact List.mem_singleton_self _))
        · exact Or.inr h
    | true =>
      have hmem : fl ∈ s ∨ fl ∈ rest.map filelineOf := by
        rcases h with h | h
        · exact Or.inl h
        · rw [List.map_cons, List.mem_cons] at h
          rcases h with h | h
          · exact Or.inl (h ▸ mem_of_contains_eq_true hs)
          · exact Or.inr h
      cases el with
      | false =>
        rw [frameLoop_cons_rep_first f rest r s hs]
        exact frameLoop_seen_mem rest _ s true fl hmem
      | true =>
        rw [frameLoop_cons_rep f rest r s hs]
        exact frameLoop_seen_mem rest r s true fl hmem

theorem framePrints_of_seen : ∀ (fs : List Frame) (s : List String) (fl : String),
    fl ∈ s → framePrints fl fs s = 0
  | [], _, _, _ => rfl
  | f :: rest, s, fl, h => by
    cases hs : s.contains (filelineOf f) with
    | false =>
      rw [framePrints_cons_new fl f rest s hs]
      have hne : (filelineOf f == fl) = false := by
        refine beq_eq_false_iff_ne.mpr ?_
        intro he
        rw [he, contains_eq_true_of_mem h] at hs
        cases hs
      rw [hne, if_neg (by simp), framePrints_of_seen rest _ fl (List.mem_append_left _ h)]
    | true =>
      rw [framePrints_cons_rep fl f rest s hs]
      exact framePrints_of_seen rest s fl h

theorem framePrints_once : ∀ (fs : List Frame) (s : List String) (fl : String),
    ¬ fl ∈ s → fl ∈ fs.map filelineOf → framePrints fl fs s = 1
  | [], s, fl, _, h => by simp at h
  | f :: rest, s, fl, hn, h => by
    cases hs : s.contains (filelineOf f) with
    | false =>
      rw [framePrints_cons_new fl f rest s hs]
      by_cases he : filelineOf f = fl
      · rw [if_pos (by simp [he]),
          framePrints_of_seen rest _ fl
            (List.mem_append_right _ (by rw [← he]; exact List.mem_singleton_self _))]
      · rw [if_neg (by simp [he])]
        have hn2 : ¬ fl ∈ s ++ [filelineOf f] := by
          rw [List.mem_append, List.mem_singleton]
          rintro (hh | hh)
          · exact hn hh
          · exact he hh.symm
        have h2 : fl ∈ rest.map filelineOf := by
          rw [List.map_cons, List.mem_cons] at h
          rcases h with hh | hh
          · exact absurd hh.symm he
          · exact hh
        rw [framePrints_once rest _ fl hn2 h2]
    | true =>
      rw [framePrints_cons_rep fl f rest s hs]
      have h2 : fl ∈ rest.map filelineOf := by
        rw [List.map_cons, List.mem_cons] at h
        rcases h with hh | hh
        · exact absurd (hh ▸ mem_of_contains_eq_true hs) hn
        · exact hh
      exact framePrints_once rest s fl hn h2

theorem elisionCount_of_true : ∀ (fs : List Frame) (s : List String),
    elisionCount fs s true = 0
  | [], _ => rfl
  | f :: rest, s => by
    cases hs : s.contains (filelineOf f) with
    | false => rw [elisionCount_cons_new f rest s true hs, elisionCount_of_true rest _]
    | true => rw [elisionCount_cons_rep f rest s hs, elisionCount_of_true rest s]

theorem elisionCount_le_one : ∀ (fs : List Frame) (s : List String),
    elisionCount fs s false ≤ 1
  | [], _ => by simp [elisionCount]
  | f :: rest, s => by
    cases hs : s.contains (filelineOf f) with
    | false =>
      rw [elisionCount_cons_new f rest s false hs]
      exact elisionCount_le_one rest _
    | true =>
      rw [elisionCount_cons_rep_first f rest s hs, elisionCount_of_true rest s]

theorem elisionCount_pos : ∀ (fs : List Frame) (s : List String) (fl : String),
    fl ∈ s → fl ∈ fs.map filelineOf → 1 ≤ elisionCount fs s false
  | [], _, _, _, h => by simp at h
  | f :: rest, s, fl, hin, h => by
    cases hs : s.contains (filelineOf f) with
    | false =>
      rw [elisionCount_cons_new f rest s false hs]
      have h2 : fl ∈ rest.map filelineOf := by
        rw [List.map_cons, List.mem_cons] at h
        rcases h with hh | hh
        · subst hh
          rw [contains_eq_true_of_mem hin] at hs
          cases hs
        · exact hh
      exact elisionCount_pos rest _ fl (List.mem_append_left _ hin) h2
    | true =>
      rw [elisionCount_cons_rep_first f rest s hs]
      exact Nat.le_add_right 1 _

theorem frameLoop_print_occurs : ∀ (fs : List Frame) (r : String) (s : List String)
    (el : Bool) (fl : String), ¬ fl ∈ s → fl ∈ fs.map filelineOf →
    ∃ a b, (frameLoop fs r s el).1 = a ++ ("    " ++ fl ++ "\n") ++ b
  | [], _, _, _, _, _, h => by simp at h
  | f :: rest, r, s, el, fl, hn, h => by
    cases hs : s.contains (filelineOf f) with
    | false =>
      rw [frameLoop_cons_new f rest r s el hs]
      by_cases he : filelineOf f = fl
      · obtain ⟨out, ho⟩ := frameLoop_report_mono rest
          (r ++ "    " ++ filelineOf f ++ "\n" ++ "        " ++ f.function ++ "\n")
          (s ++ [filelineOf f]) el
        refine ⟨r, "        " ++ f.function ++ "\n" ++ out, ?_⟩
        rw [ho, he]
        simp only [String.append_assoc]
      · have hn2 : ¬ fl ∈ s ++ [filelineOf f] := by
          rw [List.mem_append, List.mem_singleton]
          rintro (hh | hh)
          · exact hn hh
          · exact he hh.symm
        have h2 : fl ∈ rest.map filelineOf := by
          rw [List.map_cons, List.mem_cons] at h
          rcases h with hh | hh
          · exact absurd hh.symm he
          · exact hh
        exact frameLoop_print_occurs rest _ _ el fl hn2 h2
    | true =>
      have h2 : fl ∈ rest.map filelineOf := by
        rw [List.map_cons, List.mem_cons] at h
        rcases h with hh | hh
        · exact absurd (hh ▸ mem_of_contains_eq_true hs) hn
        · exact hh
      cases el with
      | false =>
        rw [frameLoop_cons_rep_first f rest r s hs]
        exact frameLoop_print_occurs rest _ s true fl hn h2
      | true =>
        rw [frameLoop_cons_rep f rest r s hs]
        exact frameLoop_print_occurs rest r s true fl hn h2

theorem frameLoop_elision_occurs : ∀ (fs : List Frame) (r : String) (s : List String)
    (fl : String), fl ∈ s → fl ∈ fs.map filelineOf →
    ∃ a b, (frameLoop fs r s false).1 = a ++ "    [...]\n" ++ b
  | [], _, _, _, _, h => by simp at h
  | f :: rest, r, s, fl, hin, h => by
    cases hs : s.contains (filelineOf f) with
    | false =>
      rw [frameLoop_cons_new f rest r s false hs]
      have h2 : fl ∈ rest.map filelineOf := by
        rw [List.map_cons, List.mem_cons] at h
        rcases h with hh | hh
        · subst hh
          rw [contains_eq_true_of_mem hin] at hs
          cases hs
        · exact hh
      exact frameLoop_elision_occurs rest _ _ fl (List.mem_append_left _ hin) h2
    | true =>
      obtain ⟨out, ho⟩ := frameLoop_report_mono rest (r ++ "    [...]\n") s true
      refine ⟨r, out, ?_⟩
      rw [frameLoop_cons_rep_first f rest r s hs, ho, String.append_assoc]

theorem tracePart_of_nonempty (st : List Frame) (s : List String) (h : 0 < st.length) :
    tracePart st s = ((frameLoop st.reverse "" s false).1, (frameLoop st.reverse "" s false).2.1) := by
  rw [tracePart, if_pos h]

theorem stringReport_head : ∀ (e : Error) (all : Bool) (s : List String),
    ∃ tail, (Error.stringReport e all s).1 = (tracePart e.stackTrace s).1 ++ tail
  | .mk k m msg c ex st cst tg, all, s => by
    cases all with
    | false =>
      refine ⟨colorLine msg ++ extraLine ex, ?_⟩
      cases c <;>
        simp only [Error.stringReport, Error.stackTrace, String.append_assoc,
          Bool.false_eq_true, if_false, if_true]
    | true =>
      cases c with
      | nil =>
        exact ⟨colorLine msg ++ extraLine ex,
          by simp only [Error.stringReport, Error.stackTrace, String.append_assoc, if_true]⟩
      | sysVal cs =>
        exact ⟨colorLine msg ++ extraLine ex ++ sepLine
            ++ (Error.stringReport cs true (tracePart st s).2).1,
          by simp only [Error.stringReport, Error.stackTrace, String.append_assoc, if_true]⟩
      | sysPtr cs =>
        exact ⟨colorLine msg ++ extraLine ex ++ sepLine
            ++ (Error.stringReport cs true (tracePart st s).2).1,
          by simp only [Error.stringReport, Error.stackTrace, String.append_assoc, if_true]⟩
      | foreign i cm ty =>
        exact ⟨colorLine msg ++ extraLine ex ++ sepLine ++ foreignCauseSection cm ty,
          by simp only [Error.stringReport, Error.stackTrace, String.append_assoc, if_true]⟩

/-- C6: in `StringReport(true)`, frame locations are de-duplicated across the
whole chain through the shared seen set keyed by `file:line`: a location
shared by two chained instances' captured stacks is printed by the receiver's
frame loop exactly once (and its print physically occurs in the receiver's
traceback block), it is in the seen set threaded to the cause's loop, the
cause's loop prints it zero times and instead emits exactly one `[...]`
elision marker (which physically occurs in the cause's traceback block).
The final two conjuncts tie the two loops to `stringReport`'s actual output
and seen-set threading. -/
theorem C6_frame_dedup (e1 e2 : Error) (fl : String)
    (hc : e1.cause = GoError.sysVal e2 ∨ e1.cause = GoError.sysPtr e2)
    (h1 : fl ∈ e1.stackTrace.map filelineOf)
    (h2 : fl ∈ e2.stackTrace.map filelineOf) :
    framePrints fl e1.stackTrace.reverse [] = 1
    ∧ fl ∈ (tracePart e1.stackTrace []).2
    ∧ framePrints fl e2.stackTrace.reverse ((tracePart e1.stackTrace []).2) = 0
    ∧ elisionCount e2.stackTrace.reverse ((tracePart e1.stackTrace []).2) false = 1
    ∧ (∃ a b, (tracePart e1.stackTrace []).1 = a ++ ("    " ++ fl ++ "\n") ++ b)
    ∧ (∃ a b, (tracePart e2.stackTrace ((tracePart e1.stackTrace []).2)).1
        = a ++ "    [...]\n" ++ b)
    ∧ (e1.stringReport true []).1
        = (tracePart e1.stackTrace []).1 ++ colorLine e1.message ++ extraLine e1.extra
          ++ sepLine ++ (e2.stringReport true ((tracePart e1.stackTrace []).2)).1
    ∧ (∃ tail, (e2.stringReport true ((tracePart e1.stackTrace []).2)).1
        = (tracePart e2.stackTrace ((tracePart e1.stackTrace []).2)).1 ++ tail) := by
  have hne1 : 0 < e1.stackTrace.length := by
    cases hst : e1.stackTrace with
    | nil => rw [hst] at h1; simp at h1
    | cons a l => simp [hst]
  have h1r : fl ∈ e1.stackTrace.reverse.map filelineOf := by
    rw [List.map_reverse, List.mem_reverse]; exact h1
  have h2r : fl ∈ e2.stackTrace.reverse.map filelineOf := by
    rw [List.map_reverse, List.mem_reverse]; exact h2
  have htp : (tracePart e1.stackTrace []).2 = (frameLoop e1.stackTrace.reverse "" [] false).2.1 := by
    rw [tracePart_of_nonempty _ [] hne1]
  have htp1 : (tracePart e1.stackTrace []).1 = (frameLoop e1.stackTrace.reverse "" [] false).1 := by
    rw [tracePart_of_nonempty _ [] hne1]
  have hmem : fl ∈ (tracePart e1.stackTrace []).2 := by
    rw [htp]
    exact frameLoop_seen_mem e1.stackTrace.reverse "" [] false fl (Or.inr h1r)
  refine ⟨?_, hmem, ?_, ?_, ?_, ?_, ?_, ?_⟩
  · exact framePrints_once e1.stackTrace.reverse [] fl (by simp) h1r
  · exact framePrints_of_seen e2.stackTrace.reverse _ fl hmem
  · exact Nat.le_antisymm (elisionCount_le_one _ _) (elisionCount_pos _ _ fl hmem h2r)
  · rw [htp1]
    exact frameLoop_print_occurs e1.stackTrace.reverse "" [] false fl (by simp) h1r
  · have hne2 : 0 < e2.stackTrace.length := by
      cases hst : e2.stackTrace with
      | nil => rw [hst] at h2; simp at h2
      | cons a l => simp [hst]
    rw [tracePart_of_nonempty _ _ hne2]
    exact frameLoop_elision_occurs e2.stackTrace.reverse "" _ fl hmem h2r
  · rcases e1 with ⟨k1, m1, msg1, c1, ex1, st1, cst1, tg1⟩
    simp only [Error.cause] at hc
    rcases hc with h | h <;> subst h <;>
      simp only [Error.stringReport, Error.message, Error.extra, Error.stackTrace,
        String.append_assoc, if_true]
  · exact stringReport_head e2 true _

theorem C6_frame_dedup_witness :
    framePrints "app/main.go:7" eDeposit.stackTrace.reverse [] = 1
    ∧ "app/main.go:7" ∈ (tracePart eDeposit.stackTrace []).2
    ∧ framePrints "app/main.go:7" (eUser.Cause foo).stackTrace.reverse
        ((tracePart eDeposit.stackTrace []).2) = 0
    ∧ elisionCount (eUser.Cause foo).stackTrace.reverse
        ((tracePart eDeposit.stackTrace []).2) false = 1
    ∧ (∃ a b, (tracePart eDeposit.stackTrace []).1
        = a ++ ("    " ++ "app/main.go:7" ++ "\n") ++ b)
    ∧ (∃ a b, (tracePart (eUser.Cause foo).stackTrace ((tracePart eDeposit.stackTrace []).2)).1
        = a ++ "    [...]\n" ++ b)
    ∧ (eDeposit.stringReport true []).1
        = (tracePart eDeposit.stackTrace []).1 ++ colorLine eDeposit.message
          ++ extraLine eDeposit.extra ++ sepLine
          ++ ((eUser.Cause foo).stringReport true ((tracePart eDeposit.stackTrace []).2)).1
    ∧ (∃ tail, ((eUser.Cause foo).stringReport true ((tracePart eDeposit.stackTrace []).2)).1
        = (tracePart (eUser.Cause foo).stackTrace ((tracePart eDeposit.stackTrace []).2)).1
          ++ tail) :=
  C6_frame_dedup eDeposit (eUser.Cause foo) "app/main.go:7" (Or.inr rfl)
    (by decide) (by decide)

end Errs
